import Mathlib

/-!
Shallow embedding of `ai_career_assistant/app.py`: a Flask service over a
SQLAlchemy store with three tables (User, Info, Push), a scheduled RSS
ingestion job (`fetch_and_summarize`), an LLM summarization client
(`generate_summary_and_suggestion`), and three JSON API handlers
(`register_user`, `get_today`, `complete_task`).

Modelling choices:
* each table is a list of rows in insertion order, with an explicit
  autoincrement counter for the next primary key;
* the external chat-completion endpoint is an oracle `String → String`
  from the interpolated user prompt to the returned response text;
* dates are abstract day numbers (`Nat`);
* JSON responses are a status code plus a structured body; an unhandled
  Python exception (KeyError, AttributeError on None) is `HttpResult.fault`;
* an `events` trace in the store records, in program order, every Info-row
  creation and every summarization call made by the ingestion loop, so that
  ordering statements about the loop can be expressed.
-/

namespace ACA

/-- Row of the `User` table (`class User`): autoincrement primary key,
required `profession`, optional `field` and `contact`.  The
`created_at` timestamp is not modelled (no claim mentions it). -/
structure User where
  id : Nat
  profession : String
  field : Option String
  contact : Option String
deriving DecidableEq

/-- Row of the `Info` table (`class Info`): title, url, source feed name,
raw content, and the derived summary/suggestion, which are NULL until the
ingestion loop fills them in (`Option`).  `fetched_at` is not modelled. -/
structure Info where
  id : Nat
  title : String
  url : String
  source : String
  content : String
  summary : Option String
  suggestion : Option String
deriving DecidableEq

/-- Row of the `Push` table (`class Push`): assignment date, user and info
foreign keys, the denormalized per-user suggestion, and the
`pushed`/`done` flags (both default False). -/
structure Push where
  id : Nat
  date : Nat
  user_id : Nat
  info_id : Nat
  suggestion : Option String
  pushed : Bool
  done : Bool
deriving DecidableEq

/-- Trace event emitted by the ingestion job: `createInfo i` when the Info
row with id `i` is inserted and committed, `summarize i u` when the
summarization client is invoked for that Info row and user `u`. -/
inductive Event where
  | createInfo (infoId : Nat)
  | summarize (infoId : Nat) (userId : Nat)
deriving DecidableEq

/-- The relational store plus the instrumentation trace.  Rows are kept in
insertion order (SQLite rowid order, which is what unordered
`.first()` queries observe); `nextUserId`/`nextInfoId`/`nextPushId` model
the autoincrement primary-key counters. -/
structure Store where
  users : List User
  infos : List Info
  pushes : List Push
  nextUserId : Nat
  nextInfoId : Nat
  nextPushId : Nat
  events : List Event
deriving DecidableEq

/-- The empty store created by `db.create_all()` on startup. -/
def initStore : Store :=
  { users := [], infos := [], pushes := [], nextUserId := 1, nextInfoId := 1,
    nextPushId := 1, events := [] }

/-- A parsed feed entry (`feedparser` entry): `title` and `link` are read
unconditionally, the raw `summary` field is optional
(`entry.get('summary','')`). -/
structure Entry where
  title : String
  link : String
  summary : Option String
deriving DecidableEq

/-- A parsed feed (`feedparser.parse` result): an optional feed title
(`feed.feed.get('title','RSS')`) and the list of entries. -/
structure Feed where
  title : Option String
  entries : List Entry
deriving DecidableEq

/-- The external chat-completion endpoint, abstracted as a function from
the interpolated user-message prompt to the text content of the response
(`data['choices'][0]['message']['content']`). -/
def Oracle : Type := String → String

/-- The user message interpolated into the chat payload of
`generate_summary_and_suggestion`. -/
def build_user_prompt (profession title content : String) : String :=
  "请总结以下内容为200字摘要，并提供一条针对" ++ profession ++
    "职业的技能提升建议：\n标题：" ++ title ++ "\n内容：" ++ content

/-- The literal delimiter `'建议：'` that `generate_summary_and_suggestion`
splits the model response on, as a character list. -/
def delim : List Char := ['建', '议', '：']

/-- Python `text.split('建议：')` on a character list: scans left to right,
consumes each (non-overlapping) occurrence of the delimiter, and returns
the pieces between occurrences.  Always returns at least one piece
(`''.split(sep) == ['']`). -/
def pySplitDelim : List Char → List (List Char)
  | [] => [[]]
  | '建' :: '议' :: '：' :: rest => [] :: pySplitDelim rest
  | c :: rest =>
    match pySplitDelim rest with
    | [] => [[c]]
    | piece :: pieces => (c :: piece) :: pieces

/-- Python `str.strip()`: removes leading and trailing whitespace. -/
def pyStrip (l : List Char) : List Char :=
  ((l.dropWhile Char.isWhitespace).reverse.dropWhile Char.isWhitespace).reverse

/-- Predicate: `l` contains an occurrence of the delimiter `'建议：'`. -/
def hasDelim (l : List Char) : Prop := ∃ a b, l = a ++ delim ++ b

/-- Response parsing in `generate_summary_and_suggestion`:
`parts = text.split('建议：')`, `summary = parts[0].strip()`,
`suggestion = parts[1].strip() if len(parts) > 1 else ''`.
`pySplitDelim` never returns `[]`, so the first branch is unreachable. -/
def parse_completion (text : String) : String × String :=
  match (pySplitDelim text.data).map fun l => String.mk (pyStrip l) with
  | [] => ("", "")
  | [s] => (s, "")
  | s :: t :: _ => (s, t)

/-- The client function `generate_summary_and_suggestion`: builds
the prompt, calls the completion endpoint, and splits the response into
`(summary, suggestion)`. -/
def generate_summary_and_suggestion (oracle : Oracle) (profession title content : String) :
    String × String :=
  parse_completion (oracle (build_user_prompt profession title content))

/-- One iteration of the inner `for user in users` loop of
`fetch_and_summarize`: calls the summarization client, overwrites
`info.summary`/`info.suggestion` on the already-committed Info row with id
`infoId`, and adds a Push row for this user with the per-user suggestion
(`pushed`/`done` default to false). -/
def userStep (oracle : Oracle) (today : Nat) (title content : String) (infoId : Nat)
    (st : Store) (user : User) : Store :=
  let sg := generate_summary_and_suggestion oracle user.profession title content
  let push : Push :=
    { id := st.nextPushId, date := today, user_id := user.id, info_id := infoId,
      suggestion := some sg.2, pushed := false, done := false }
  { st with
      infos := st.infos.map fun i =>
        if i.id = infoId then { i with summary := some sg.1, suggestion := some sg.2 } else i,
      pushes := st.pushes ++ [push],
      nextPushId := st.nextPushId + 1,
      events := st.events ++ [Event.summarize infoId user.id] }

/-- Body of the `for entry in feed.entries[:3]` loop of
`fetch_and_summarize`: inserts and commits the Info row first (summary and
suggestion still NULL), then runs the per-user loop over the user list
snapshot taken when the job started. -/
def processEntry (oracle : Oracle) (today : Nat) (users : List User) (feedTitle : String)
    (entry : Entry) (st : Store) : Store :=
  let info : Info :=
    { id := st.nextInfoId, title := entry.title, url := entry.link, source := feedTitle,
      content := entry.summary.getD "", summary := none, suggestion := none }
  let st1 : Store :=
    { st with
        infos := st.infos ++ [info],
        nextInfoId := st.nextInfoId + 1,
        events := st.events ++ [Event.createInfo info.id] }
  users.foldl (userStep oracle today info.title info.content info.id) st1

/-- The scheduled ingestion job `fetch_and_summarize()`: snapshots
`User.query.all()`, then for each configured feed takes the first three
entries and processes each one.  Feeds are passed already parsed (the
`feedparser.parse` call on each RSS URL). -/
def fetch_and_summarize (oracle : Oracle) (today : Nat) (feeds : List Feed) (st : Store) :
    Store :=
  let users := st.users
  feeds.foldl
    (fun st feed =>
      (feed.entries.take 3).foldl
        (fun st entry => processEntry oracle today users (feed.title.getD "RSS") entry st) st)
    st

/-- Structured JSON response body of the three API handlers. -/
inductive Body where
  /-- Body of `jsonify` over an error message. -/
  | error (msg : String)
  /-- Body of the `get_today` success response: title, summary, suggestion,
  done. -/
  | today (title : String) (summary : Option String) (suggestion : Option String) (done : Bool)
  /-- Body of the `complete_task` success response. -/
  | okStatus
  /-- Body of the `register_user` success response, carrying the new id. -/
  | okUser (user_id : Nat)
deriving DecidableEq

/-- Outcome of a request: a JSON response with an HTTP status code, or an
unhandled Python exception propagating out of the handler. -/
inductive HttpResult where
  | json (status : Nat) (body : Body)
  | fault (msg : String)
deriving DecidableEq

/-- The JSON body of a POST `/api/register` request: `data['profession']`
(raises KeyError when absent), `data.get('field')`, `data.get('contact')`. -/
structure RegisterBody where
  profession : Option String
  field : Option String
  contact : Option String
deriving DecidableEq

/-- Handler of POST `/api/register`: creates a User row and returns its id;
a body without the `profession` key raises KeyError (an unhandled fault)
and nothing is committed. -/
def register_user (st : Store) (body : RegisterBody) : HttpResult × Store :=
  match body.profession with
  | none => (HttpResult.fault "KeyError: profession", st)
  | some prof =>
    let user : User :=
      { id := st.nextUserId, profession := prof, field := body.field, contact := body.contact }
    (HttpResult.json 200 (Body.okUser user.id),
      { st with users := st.users ++ [user], nextUserId := st.nextUserId + 1 })

/-- Handler of GET `/api/today/<user_id>`: takes the first Push row for
this user dated today; with none, returns 404 `{'error': 'No content yet'}`;
otherwise looks the joined Info up by primary key and dereferences it
unconditionally — a dangling `info_id` makes `Info.query.get` return None
and the attribute access raises (an unhandled fault). -/
def get_today (st : Store) (today : Nat) (user_id : Nat) : HttpResult × Store :=
  match st.pushes.find? (fun p => p.user_id == user_id && p.date == today) with
  | none => (HttpResult.json 404 (Body.error "No content yet"), st)
  | some push =>
    match st.infos.find? (fun i => i.id == push.info_id) with
    | none => (HttpResult.fault "AttributeError: NoneType has no attribute title", st)
    | some info =>
      (HttpResult.json 200 (Body.today info.title info.summary push.suggestion push.done), st)

/-- Handler of POST `/api/complete`: looks the Push row up by primary key;
with none, returns 404 `{'error': 'Not found'}` and changes nothing;
otherwise sets `done = True`, commits, and returns `{'status': 'ok'}`. -/
def complete_task (st : Store) (push_id : Nat) : HttpResult × Store :=
  match st.pushes.find? (fun p => p.id == push_id) with
  | none => (HttpResult.json 404 (Body.error "Not found"), st)
  | some _ =>
    (HttpResult.json 200 Body.okStatus,
      { st with
          pushes := st.pushes.map fun p =>
            if p.id = push_id then { p with done := true } else p })

/-- The store states reachable from startup by any interleaving of the
ingestion job and the three API handlers. -/
inductive Reachable : Store → Prop where
  | init : Reachable initStore
  | fetch (oracle : Oracle) (today : Nat) (feeds : List Feed) {st : Store} :
      Reachable st → Reachable (fetch_and_summarize oracle today feeds st)
  | register (body : RegisterBody) {st : Store} :
      Reachable st → Reachable (register_user st body).2
  | today (d uid : Nat) {st : Store} :
      Reachable st → Reachable (get_today st d uid).2
  | complete (pid : Nat) {st : Store} :
      Reachable st → Reachable (complete_task st pid).2

/-- Decidable form of the C10 invariant: no Push row has ever been marked
as delivered. -/
def pushesNotPushed (st : Store) : Bool :=
  st.pushes.all fun p => !p.pushed

/-- The trace block emitted while processing one entry: the Info row with
id `infoId` is created first, then one summarization call per user, in
user order. -/
def entryEvents (infoId : Nat) (users : List User) : List Event :=
  Event.createInfo infoId :: users.map fun u => Event.summarize infoId u.id

/-- The Push rows created while processing one entry: one per user in user
order, with consecutive ids starting at `pid`, each carrying that user's
own generated suggestion and `pushed = done = false`. -/
def expectedPushes (oracle : Oracle) (today : Nat) (title content : String) (infoId : Nat) :
    Nat → List User → List Push
  | _, [] => []
  | pid, u :: rest =>
    { id := pid, date := today, user_id := u.id, info_id := infoId,
      suggestion := some (generate_summary_and_suggestion oracle u.profession title content).2,
      pushed := false, done := false } ::
      expectedPushes oracle today title content infoId (pid + 1) rest

/-! ### Concrete fixtures used by witnesses and counterexamples -/

/-- A completion oracle that always answers with a fixed well-formed
response. -/
def oracleW : Oracle := fun _ => "这是一段摘要建议：多做练习"

/-- Three concrete feed entries. -/
def entryW1 : Entry := { title := "标题一", link := "http://a/1", summary := some "正文一" }

def entryW2 : Entry := { title := "标题二", link := "http://a/2", summary := none }

def entryW3 : Entry := { title := "标题三", link := "http://a/3", summary := some "正文三" }

/-- A concrete feed whose parse yields exactly three entries. -/
def feedW : Feed := { title := some "测试源", entries := [entryW1, entryW2, entryW3] }

/-- Two concrete registered users. -/
def uW1 : User := { id := 1, profession := "工程师", field := some "后端", contact := none }

def uW2 : User := { id := 2, profession := "医生", field := none, contact := some "a@b" }

/-- A store holding exactly the two users `uW1`, `uW2` and nothing else. -/
def stW : Store :=
  { users := [uW1, uW2], infos := [], pushes := [], nextUserId := 3, nextInfoId := 1,
    nextPushId := 1, events := [] }

/-- An Info row that two Push rows of `stC4` both reference. -/
def infoC4 : Info :=
  { id := 10, title := "文章", url := "http://a/x", source := "rss", content := "内容",
    summary := some "摘要", suggestion := some "s0" }

/-- First Push row of `stC4` for user 1 dated day 0. -/
def pushA : Push :=
  { id := 1, date := 0, user_id := 1, info_id := 10, suggestion := some "a",
    pushed := false, done := false }

/-- Second Push row of `stC4` for the same user and day, with a different
suggestion. -/
def pushB : Push :=
  { id := 2, date := 0, user_id := 1, info_id := 10, suggestion := some "b",
    pushed := false, done := false }

/-- A store where user 1 has TWO Push rows dated day 0. -/
def stC4 : Store :=
  { users := [], infos := [infoC4], pushes := [pushA, pushB], nextUserId := 1,
    nextInfoId := 11, nextPushId := 3, events := [] }

/-- An Info row referenced by the single Push row of `stW4`. -/
def infoW4 : Info :=
  { id := 10, title := "文章二", url := "http://a/y", source := "rss", content := "内容二",
    summary := some "摘要二", suggestion := some "s1" }

/-- The single Push row of `stW4`, for user 7 dated day 5. -/
def pushW4 : Push :=
  { id := 1, date := 5, user_id := 7, info_id := 10, suggestion := some "g",
    pushed := false, done := true }

/-- A store where user 7 has exactly one Push row, dated day 5. -/
def stW4 : Store :=
  { users := [], infos := [infoW4], pushes := [pushW4], nextUserId := 1, nextInfoId := 11,
    nextPushId := 2, events := [] }

/-- A store whose single Push row references the non-existent Info id 42. -/
def stC9 : Store :=
  { users := [], infos := [],
    pushes := [{ id := 1, date := 0, user_id := 1, info_id := 42, suggestion := some "x",
                 pushed := false, done := false }],
    nextUserId := 1, nextInfoId := 1, nextPushId := 2, events := [] }

/-- A concrete registration body with a profession. -/
def regW : RegisterBody := { profession := some "工程师", field := none, contact := none }

/-- A store reached from startup by one registration followed by one
ingestion run over `feedW`. -/
def stReach : Store :=
  fetch_and_summarize oracleW 0 [feedW] (register_user initStore regW).2

/-! ### Characterization lemmas for the ingestion loop -/

theorem map_eq_self_of {α : Type} (l : List α) (f : α → α) (h : ∀ a ∈ l, f a = a) :
    l.map f = l := by
  induction l with
  | nil => rfl
  | cons a t ih =>
    simp only [List.map_cons, h a (List.mem_cons_self a t)]
    rw [ih fun x hx => h x (List.mem_cons_of_mem a hx)]

theorem take3_of_le {α : Type} (l : List α) (h : 3 ≤ l.length) :
    ∃ a b c r, l = a :: b :: c :: r := by
  rcases l with _ | ⟨a, _ | ⟨b, _ | ⟨c, r⟩⟩⟩
  · simp at h
  · simp at h
  · simp at h
  · exact ⟨a, b, c, r, rfl⟩

theorem expectedPushes_length (oracle : Oracle) (today : Nat) (title content : String)
    (infoId : Nat) (users : List User) :
    ∀ pid : Nat, (expectedPushes oracle today title content infoId pid users).length =
      users.length := by
  induction users with
  | nil => intro pid; rfl
  | cons u rest ih => intro pid; simp [expectedPushes, ih]

theorem foldl_userStep_pushes (oracle : Oracle) (today : Nat) (title content : String)
    (infoId : Nat) (users : List User) :
    ∀ st : Store,
      (users.foldl (userStep oracle today title content infoId) st).pushes =
        st.pushes ++ expectedPushes oracle today title content infoId st.nextPushId users := by
  induction users with
  | nil => intro st; simp [expectedPushes]
  | cons u rest ih =>
    intro st
    rw [List.foldl_cons, ih]
    simp [userStep, expectedPushes]

theorem foldl_userStep_nextPushId (oracle : Oracle) (today : Nat) (title content : String)
    (infoId : Nat) (users : List User) :
    ∀ st : Store,
      (users.foldl (userStep oracle today title content infoId) st).nextPushId =
        st.nextPushId + users.length := by
  induction users with
  | nil => intro st; rfl
  | cons u rest ih =>
    intro st
    rw [List.foldl_cons, ih]
    simp [userStep]
    omega

theorem foldl_userStep_events (oracle : Oracle) (today : Nat) (title content : String)
    (infoId : Nat) (users : List User) :
    ∀ st : Store,
      (users.foldl (userStep oracle today title content infoId) st).events =
        st.events ++ users.map fun u => Event.summarize infoId u.id := by
  induction users with
  | nil => intro st; simp
  | cons u rest ih =>
    intro st
    rw [List.foldl_cons, ih]
    simp [userStep]

theorem foldl_userStep_users (oracle : Oracle) (today : Nat) (title content : String)
    (infoId : Nat) (users : List User) :
    ∀ st : Store,
      (users.foldl (userStep oracle today title content infoId) st).users = st.users := by
  induction users with
  | nil => intro st; rfl
  | cons u rest ih => intro st; rw [List.foldl_cons, ih]; rfl

theorem foldl_userStep_nextInfoId (oracle : Oracle) (today : Nat) (title content : String)
    (infoId : Nat) (users : List User) :
    ∀ st : Store,
      (users.foldl (userStep oracle today title content infoId) st).nextInfoId =
        st.nextInfoId := by
  induction users with
  | nil => intro st; rfl
  | cons u rest ih => intro st; rw [List.foldl_cons, ih]; rfl

theorem foldl_userStep_infos_length (oracle : Oracle) (today : Nat) (title content : String)
    (infoId : Nat) (users : List User) :
    ∀ st : Store,
      (users.foldl (userStep oracle today title content infoId) st).infos.length =
        st.infos.length := by
  induction users with
  | nil => intro st; rfl
  | cons u rest ih =>
    intro st
    rw [List.foldl_cons, ih]
    simp [userStep]

theorem foldl_userStep_infos (oracle : Oracle) (today : Nat) (title content : String)
    (infoId : Nat) (users : List User) (ulast : User) (hl : users.getLast? = some ulast) :
    ∀ (st : Store) (pre : List Info) (cur : Info),
      st.infos = pre ++ [cur] → cur.id = infoId → (∀ i ∈ pre, i.id ≠ infoId) →
      (users.foldl (userStep oracle today title content infoId) st).infos =
        pre ++ [{ cur with
          summary :=
            some (generate_summary_and_suggestion oracle ulast.profession title content).1,
          suggestion :=
            some (generate_summary_and_suggestion oracle ulast.profession title content).2 }] := by
  induction users with
  | nil => simp at hl
  | cons u rest ih =>
    intro st pre cur hst hid hpre
    rw [List.foldl_cons]
    have hinfos : (userStep oracle today title content infoId st u).infos =
        pre ++ [{ cur with
          summary := some (generate_summary_and_suggestion oracle u.profession title content).1,
          suggestion :=
            some (generate_summary_and_suggestion oracle u.profession title content).2 }] := by
      simp only [userStep, hst, List.map_append, List.map_cons, List.map_nil]
      rw [map_eq_self_of pre _ fun i hi => by simp [hpre i hi, hid ▸ hpre i hi]]
      simp [hid]
    cases rest with
    | nil =>
      simp only [List.foldl_nil]
      rw [hinfos]
      simp only [List.getLast?_singleton, Option.some.injEq] at hl
      rw [hl]
    | cons v rest' =>
      rw [List.getLast?_cons_cons] at hl
      exact ih hl (userStep oracle today title content infoId st u) pre
        { cur with
          summary := some (generate_summary_and_suggestion oracle u.profession title content).1,
          suggestion :=
            some (generate_summary_and_suggestion oracle u.profession title content).2 }
        hinfos hid hpre

theorem processEntry_infos_length (oracle : Oracle) (today : Nat) (users : List User)
    (feedTitle : String) (entry : Entry) (st : Store) :
    (processEntry oracle today users feedTitle entry st).infos.length =
      st.infos.length + 1 := by
  simp [processEntry, foldl_userStep_infos_length]

theorem processEntry_pushes_length (oracle : Oracle) (today : Nat) (users : List User)
    (feedTitle : String) (entry : Entry) (st : Store) :
    (processEntry oracle today users feedTitle entry st).pushes.length =
      st.pushes.length + users.length := by
  simp [processEntry, foldl_userStep_pushes, expectedPushes_length]

theorem processEntry_events (oracle : Oracle) (today : Nat) (users : List User)
    (feedTitle : String) (entry : Entry) (st : Store) :
    (processEntry oracle today users feedTitle entry st).events =
      st.events ++ entryEvents st.nextInfoId users := by
  simp [processEntry, foldl_userStep_events, entryEvents]

theorem processEntry_nextInfoId (oracle : Oracle) (today : Nat) (users : List User)
    (feedTitle : String) (entry : Entry) (st : Store) :
    (processEntry oracle today users feedTitle entry st).nextInfoId = st.nextInfoId + 1 := by
  simp [processEntry, foldl_userStep_nextInfoId]

theorem processEntry_users (oracle : Oracle) (today : Nat) (users : List User)
    (feedTitle : String) (entry : Entry) (st : Store) :
    (processEntry oracle today users feedTitle entry st).users = st.users := by
  simp [processEntry, foldl_userStep_users]

theorem processEntry_pushes (oracle : Oracle) (today : Nat) (users : List User)
    (feedTitle : String) (entry : Entry) (st : Store) :
    (processEntry oracle today users feedTitle entry st).pushes =
      st.pushes ++ expectedPushes oracle today entry.title (entry.summary.getD "")
        st.nextInfoId st.nextPushId users := by
  simp only [processEntry]
  rw [foldl_userStep_pushes]

theorem processEntry_infos (oracle : Oracle) (today : Nat) (users : List User)
    (feedTitle : String) (entry : Entry) (st : Store) (ulast : User)
    (hl : users.getLast? = some ulast)
    (hfresh : ∀ i ∈ st.infos, i.id ≠ st.nextInfoId) :
    (processEntry oracle today users feedTitle entry st).infos =
      st.infos ++ [{ id := st.nextInfoId, title := entry.title, url := entry.link,
                     source := feedTitle, content := entry.summary.getD "",
                     summary := some (generate_summary_and_suggestion oracle
                       ulast.profession entry.title (entry.summary.getD "")).1,
                     suggestion := some (generate_summary_and_suggestion oracle
                       ulast.profession entry.title (entry.summary.getD "")).2 }] := by
  simp only [processEntry]
  exact foldl_userStep_infos oracle today entry.title (entry.summary.getD "") st.nextInfoId
    users ulast hl _ st.infos
    { id := st.nextInfoId, title := entry.title, url := entry.link, source := feedTitle,
      content := entry.summary.getD "", summary := none, suggestion := none }
    rfl rfl hfresh

/-- Claim C1: over one feed whose parse yields at least 3 entries and a store
with exactly 2 users, the ingestion job creates exactly 3 new Info rows and
exactly 6 new Push rows, and the emitted trace consists of three per-entry
blocks, each of which creates the entry's Info row strictly before any
summarization call for it (`entryEvents` puts `createInfo` at the head of
the block). -/
theorem claim1_ingestion_counts (oracle : Oracle) (today : Nat) (feed : Feed) (st : Store)
    (hf : 3 ≤ feed.entries.length) (hu : st.users.length = 2) :
    (fetch_and_summarize oracle today [feed] st).infos.length = st.infos.length + 3 ∧
    (fetch_and_summarize oracle today [feed] st).pushes.length = st.pushes.length + 6 ∧
    (fetch_and_summarize oracle today [feed] st).events =
      st.events ++ (entryEvents st.nextInfoId st.users ++
        (entryEvents (st.nextInfoId + 1) st.users ++
          entryEvents (st.nextInfoId + 2) st.users)) := by
  obtain ⟨a, b, c, r, hE⟩ := take3_of_le feed.entries hf
  have h3 : feed.entries.take 3 = [a, b, c] := by rw [hE]; rfl
  simp only [fetch_and_summarize, List.foldl_cons, List.foldl_nil, h3]
  refine ⟨?_, ?_, ?_⟩
  · rw [processEntry_infos_length, processEntry_infos_length, processEntry_infos_length]
  · rw [processEntry_pushes_length, processEntry_pushes_length, processEntry_pushes_length, hu]
  · rw [processEntry_events, processEntry_events, processEntry_events,
      processEntry_nextInfoId, processEntry_nextInfoId, processEntry_nextInfoId]
    simp [List.append_assoc]

/-- Claim C2: processing one entry with a non-empty user list leaves the
shared Info row holding the summary/suggestion generated for the LAST user
iterated over (each per-user summarization overwrites the previous one),
while the Push rows created — one per user, in order — each keep that
user's own suggestion (`expectedPushes`). -/
theorem claim2_last_user_wins (oracle : Oracle) (today : Nat) (users : List User)
    (feedTitle : String) (entry : Entry) (st : Store) (ulast : User)
    (hl : users.getLast? = some ulast)
    (hfresh : ∀ i ∈ st.infos, i.id ≠ st.nextInfoId) :
    (processEntry oracle today users feedTitle entry st).infos =
      st.infos ++ [{ id := st.nextInfoId, title := entry.title, url := entry.link,
                     source := feedTitle, content := entry.summary.getD "",
                     summary := some (generate_summary_and_suggestion oracle
                       ulast.profession entry.title (entry.summary.getD "")).1,
                     suggestion := some (generate_summary_and_suggestion oracle
                       ulast.profession entry.title (entry.summary.getD "")).2 }] ∧
    (processEntry oracle today users feedTitle entry st).pushes =
      st.pushes ++ expectedPushes oracle today entry.title (entry.summary.getD "")
        st.nextInfoId st.nextPushId users :=
  ⟨processEntry_infos oracle today users feedTitle entry st ulast hl hfresh,
    processEntry_pushes oracle today users feedTitle entry st⟩

/-- Claim C2 witness: processing the first concrete entry for the user
list `[uW1, uW2]` — the stored Info summary/suggestion are the ones
generated for `uW2`, the last user iterated over. -/
theorem claim2_witness :
    (processEntry oracleW 0 [uW1, uW2] "测试源" entryW1 stW).infos =
      stW.infos ++ [{ id := stW.nextInfoId, title := entryW1.title, url := entryW1.link,
                      source := "测试源", content := entryW1.summary.getD "",
                      summary := some (generate_summary_and_suggestion oracleW
                        uW2.profession entryW1.title (entryW1.summary.getD "")).1,
                      suggestion := some (generate_summary_and_suggestion oracleW
                        uW2.profession entryW1.title (entryW1.summary.getD "")).2 }] ∧
    (processEntry oracleW 0 [uW1, uW2] "测试源" entryW1 stW).pushes =
      stW.pushes ++ expectedPushes oracleW 0 entryW1.title (entryW1.summary.getD "")
        stW.nextInfoId stW.nextPushId [uW1, uW2] :=
  claim2_last_user_wins oracleW 0 [uW1, uW2] "测试源" entryW1 stW uW2
    (by decide) (by decide)

/-- Claim C1 witness: the ingestion run over the concrete three-entry feed
`feedW` and the two-user store `stW`. -/
theorem claim1_witness :
    (fetch_and_summarize oracleW 0 [feedW] stW).infos.length = stW.infos.length + 3 ∧
    (fetch_and_summarize oracleW 0 [feedW] stW).pushes.length = stW.pushes.length + 6 ∧
    (fetch_and_summarize oracleW 0 [feedW] stW).events =
      stW.events ++ (entryEvents stW.nextInfoId stW.users ++
        (entryEvents (stW.nextInfoId + 1) stW.users ++
          entryEvents (stW.nextInfoId + 2) stW.users)) :=
  claim1_ingestion_counts oracleW 0 feedW stW (by decide) (by decide)

/-! ### Lookup lemmas for the API handlers -/

theorem find?_first {α : Type} (p : α → Bool) (pre : List α) (x : α) (post : List α)
    (hpre : ∀ a ∈ pre, p a = false) (hx : p x = true) :
    (pre ++ x :: post).find? p = some x := by
  induction pre with
  | nil => simp [List.find?_cons_of_pos, hx]
  | cons a t ih =>
    rw [List.cons_append, List.find?_cons_of_neg]
    · exact ih fun y hy => hpre y (List.mem_cons_of_mem a hy)
    · simp [hpre a (List.mem_cons_self a t)]

theorem find?_id_of_nodup (infos : List Info) (info : Info)
    (hnd : (infos.map Info.id).Nodup) (hmem : info ∈ infos) :
    infos.find? (fun i => i.id == info.id) = some info := by
  induction infos with
  | nil => cases hmem
  | cons a t ih =>
    rw [List.map_cons, List.nodup_cons] at hnd
    rcases List.mem_cons.mp hmem with h | h
    · subst h
      rw [List.find?_cons_of_pos]
      simp
    · have hne : a.id ≠ info.id := fun he => hnd.1 (he ▸ List.mem_map_of_mem Info.id h)
      rw [List.find?_cons_of_neg]
      · exact ih hnd.2 h
      · simp [hne]

/-- Claim C4 counterexample: `stC4` holds TWO Push rows dated today for
user 1; instantiated at the second one (`pushB`), the claim as stated is
false — `get_today` answers from the first row (`pushA`), whose suggestion
differs. -/
theorem claim4_counterexample :
    pushB ∈ stC4.pushes ∧ pushB.user_id = 1 ∧ pushB.date = 0 ∧
    infoC4 ∈ stC4.infos ∧ infoC4.id = pushB.info_id ∧
    (get_today stC4 0 1).1 ≠
      HttpResult.json 200 (Body.today infoC4.title infoC4.summary pushB.suggestion pushB.done)
    := by decide

/-- Claim C4 (amended): when the Push row is the FIRST row dated today for
the user in insertion order (no earlier row matches) and its `info_id`
resolves against duplicate-free Info ids, `get_today` returns that Info's
title/summary and that Push's suggestion/done exactly as stored, leaving
the store unchanged. -/
theorem claim4_today_first_push (st : Store) (today uid : Nat) (pre : List Push)
    (push : Push) (post : List Push) (info : Info)
    (hsplit : st.pushes = pre ++ push :: post)
    (hpre : ∀ q ∈ pre, ¬(q.user_id = uid ∧ q.date = today))
    (huid : push.user_id = uid) (hdate : push.date = today)
    (hmem : info ∈ st.infos) (hid : info.id = push.info_id)
    (hnd : (st.infos.map Info.id).Nodup) :
    get_today st today uid =
      (HttpResult.json 200 (Body.today info.title info.summary push.suggestion push.done),
        st) := by
  have h1 : st.pushes.find? (fun q => q.user_id == uid && q.date == today) = some push := by
    rw [hsplit]
    refine find?_first _ pre push post (fun a ha => ?_) (by simp [huid, hdate])
    rw [Bool.eq_false_iff]
    intro hc
    rw [Bool.and_eq_true, beq_iff_eq, beq_iff_eq] at hc
    exact hpre a ha hc
  have h2 : st.infos.find? (fun i => i.id == push.info_id) = some info := by
    rw [← hid]
    exact find?_id_of_nodup st.infos info hnd hmem
  simp [get_today, h1, h2]

/-- Claim C4 witness: the amended theorem applied to the concrete store
`stW4`, whose user 7 has exactly one Push row dated day 5. -/
theorem claim4_witness :
    get_today stW4 5 7 =
      (HttpResult.json 200
        (Body.today infoW4.title infoW4.summary pushW4.suggestion pushW4.done), stW4) :=
  claim4_today_first_push stW4 5 7 [] pushW4 [] infoW4 rfl (by simp) rfl rfl
    (by decide) rfl (by decide)

/-- Claim C5: when no Push row for the user is dated today, `get_today`
returns 404 with body `{'error': 'No content yet'}` and the store is
unchanged. -/
theorem claim5_today_not_found (st : Store) (today uid : Nat)
    (h : ∀ q ∈ st.pushes, ¬(q.user_id = uid ∧ q.date = today)) :
    get_today st today uid = (HttpResult.json 404 (Body.error "No content yet"), st) := by
  have hn : st.pushes.find? (fun q => q.user_id == uid && q.date == today) = none := by
    rw [List.find?_eq_none]
    intro x hx
    simp only [Bool.and_eq_true, beq_iff_eq]
    exact fun hc => h x hx ⟨hc.1, hc.2⟩
  unfold get_today
  rw [hn]

/-- Claim C5 witness: the empty startup store has no Push rows at all. -/
theorem claim5_witness :
    get_today initStore 0 1 = (HttpResult.json 404 (Body.error "No content yet"), initStore)
    := claim5_today_not_found initStore 0 1 (by simp [initStore])

/-- Claim C6: with a Push row whose id is `p` in the store, POST
`/api/complete` answers `{'status': 'ok'}`, every row with id `p` ends up
with `done = true`, and the operation is idempotent: a second identical
call returns the same answer and leaves the store exactly as after the
first call. -/
theorem claim6_complete_idempotent (st : Store) (p : Nat)
    (h : ∃ q ∈ st.pushes, q.id = p) :
    (complete_task st p).1 = HttpResult.json 200 Body.okStatus ∧
    ((complete_task st p).2.pushes.all fun q => !(q.id == p) || q.done) = true ∧
    complete_task (complete_task st p).2 p =
      (HttpResult.json 200 Body.okStatus, (complete_task st p).2) := by
  obtain ⟨q, hq, hqid⟩ := h
  have hfind : (st.pushes.find? fun x => x.id == p).isSome := by
    rw [List.find?_isSome]
    exact ⟨q, hq, by simp [hqid]⟩
  obtain ⟨r, hr⟩ := Option.isSome_iff_exists.mp hfind
  have hgg : ∀ x : Push,
      (if (if x.id = p then { x with done := true } else x).id = p then
        { (if x.id = p then { x with done := true } else x) with done := true }
      else (if x.id = p then { x with done := true } else x)) =
        (if x.id = p then { x with done := true } else x) := by
    intro x
    by_cases hx : x.id = p <;> simp [hx]
  have hmap : (st.pushes.map fun x => if x.id = p then { x with done := true } else x).map
      (fun x => if x.id = p then { x with done := true } else x) =
      st.pushes.map fun x => if x.id = p then { x with done := true } else x := by
    rw [List.map_map]
    exact List.map_congr_left fun a _ => hgg a
  have hfind2 : ((st.pushes.map fun x =>
      if x.id = p then { x with done := true } else x).find? fun x => x.id == p).isSome := by
    rw [List.find?_isSome]
    refine ⟨if q.id = p then { q with done := true } else q, List.mem_map_of_mem _ hq, ?_⟩
    by_cases hx : q.id = p <;> simp [hx, hqid]
  obtain ⟨r2, hr2⟩ := Option.isSome_iff_exists.mp hfind2
  unfold complete_task
  rw [hr]
  refine ⟨rfl, ?_, ?_⟩
  · rw [List.all_eq_true]
    intro x hx
    obtain ⟨y, hy, rfl⟩ := List.mem_map.mp hx
    by_cases hy' : y.id = p <;> simp [hy']
  · simp only
    rw [hr2, hmap]

/-- Claim C6 witness: completing the single Push row (id 1) of `stW4`. -/
theorem claim6_witness :
    (complete_task stW4 1).1 = HttpResult.json 200 Body.okStatus ∧
    ((complete_task stW4 1).2.pushes.all fun q => !(q.id == 1) || q.done) = true ∧
    complete_task (complete_task stW4 1).2 1 =
      (HttpResult.json 200 Body.okStatus, (complete_task stW4 1).2) :=
  claim6_complete_idempotent stW4 1 (by decide)

/-- Claim C7: with no Push row whose id is `p`, POST `/api/complete`
returns 404 with body `{'error': 'Not found'}` and the store is unchanged. -/
theorem claim7_complete_not_found (st : Store) (p : Nat)
    (h : ∀ q ∈ st.pushes, q.id ≠ p) :
    complete_task st p = (HttpResult.json 404 (Body.error "Not found"), st) := by
  have hn : st.pushes.find? (fun x => x.id == p) = none := by
    rw [List.find?_eq_none]
    intro x hx
    simp only [beq_iff_eq]
    exact h x hx
  unfold complete_task
  rw [hn]

/-- Claim C7 witness: `stW4` has no Push row with id 99. -/
theorem claim7_witness :
    complete_task stW4 99 = (HttpResult.json 404 (Body.error "Not found"), stW4) :=
  claim7_complete_not_found stW4 99 (by decide)

/-- Claim C8 (code bug): a register request without the `profession` key
makes the handler raise KeyError — an unhandled fault, not the clean
client error the spec requires — for every store state; nothing is
committed. -/
theorem claim8_register_missing_profession_faults (st : Store) (f c : Option String) :
    register_user st { profession := none, field := f, contact := c } =
      (HttpResult.fault "KeyError: profession", st) := rfl

/-- Claim C9: in the concrete store `stC9`, user 1 has a Push row dated
day 0 whose `info_id` 42 resolves to no Info row, and `get_today`
propagates an unhandled fault (the attribute access on the missing Info)
instead of a 404 or a well-formed response. -/
theorem claim9_dangling_info_fault :
    ((stC9.pushes.any fun p => p.user_id == 1 && p.date == 0) = true) ∧
    ((stC9.infos.all fun i => !(i.id == 42)) = true) ∧
    (get_today stC9 0 1).1 =
      HttpResult.fault "AttributeError: NoneType has no attribute title" := by
  decide

/-! ### Preservation lemmas for the delivered flag -/

theorem pushesNotPushed_iff (st : Store) :
    pushesNotPushed st = true ↔ ∀ p ∈ st.pushes, p.pushed = false := by
  simp [pushesNotPushed, List.all_eq_true]

theorem expectedPushes_pushed (oracle : Oracle) (today : Nat) (title content : String)
    (infoId : Nat) (users : List User) :
    ∀ (pid : Nat), ∀ q ∈ expectedPushes oracle today title content infoId pid users,
      q.pushed = false := by
  induction users with
  | nil => intro pid q hq; cases hq
  | cons u rest ih =>
    intro pid q hq
    rcases List.mem_cons.mp hq with h | h
    · subst h; rfl
    · exact ih (pid + 1) q h

theorem processEntry_pushes_mem (oracle : Oracle) (today : Nat) (users : List User)
    (feedTitle : String) (entry : Entry) (st : Store) (q : Push)
    (hq : q ∈ (processEntry oracle today users feedTitle entry st).pushes) :
    q ∈ st.pushes ∨ q.pushed = false := by
  rw [processEntry_pushes] at hq
  rcases List.mem_append.mp hq with h | h
  · exact Or.inl h
  · exact Or.inr (expectedPushes_pushed _ _ _ _ _ users _ q h)

theorem foldl_pushes_mem {α : Type} (f : Store → α → Store)
    (hf : ∀ st a q, q ∈ (f st a).pushes → q ∈ st.pushes ∨ q.pushed = false) :
    ∀ (l : List α) (st : Store) (q : Push),
      q ∈ (l.foldl f st).pushes → q ∈ st.pushes ∨ q.pushed = false := by
  intro l
  induction l with
  | nil => intro st q hq; exact Or.inl hq
  | cons a t ih =>
    intro st q hq
    rw [List.foldl_cons] at hq
    rcases ih (f st a) q hq with h | h
    · exact hf st a q h
    · exact Or.inr h

theorem fetch_pushes_mem (oracle : Oracle) (today : Nat) (feeds : List Feed) (st : Store)
    (q : Push) (hq : q ∈ (fetch_and_summarize oracle today feeds st).pushes) :
    q ∈ st.pushes ∨ q.pushed = false := by
  simp only [fetch_and_summarize] at hq
  exact foldl_pushes_mem _
    (fun st1 feed q1 hq1 =>
      foldl_pushes_mem _
        (fun st2 entry q2 hq2 =>
          processEntry_pushes_mem oracle today st.users (feed.title.getD "RSS") entry st2 q2 hq2)
        (feed.entries.take 3) st1 q1 hq1)
    feeds st q hq

theorem complete_task_pushes_mem (st : Store) (pid : Nat) (q : Push)
    (hq : q ∈ (complete_task st pid).2.pushes) :
    ∃ r ∈ st.pushes, q.pushed = r.pushed := by
  cases hfind : st.pushes.find? (fun x => x.id == pid) with
  | none =>
    simp only [complete_task, hfind] at hq
    exact ⟨q, hq, rfl⟩
  | some r0 =>
    simp only [complete_task, hfind] at hq
    obtain ⟨y, hy, rfl⟩ := List.mem_map.mp hq
    refine ⟨y, hy, ?_⟩
    by_cases hx : y.id = pid <;> simp [hx]

theorem register_user_pushes (st : Store) (body : RegisterBody) :
    (register_user st body).2.pushes = st.pushes := by
  rcases body with ⟨prof, f, c⟩
  cases prof <;> rfl

theorem get_today_snd (st : Store) (d uid : Nat) : (get_today st d uid).2 = st := by
  cases h1 : st.pushes.find? (fun p => p.user_id == uid && p.date == d) with
  | none => simp [get_today, h1]
  | some push =>
    cases h2 : st.infos.find? (fun i => i.id == push.info_id) with
    | none => simp [get_today, h1, h2]
    | some info => simp [get_today, h1, h2]

/-- Claim C10: in every reachable store state, every Push row still has
`pushed = false` — the flag is initialized to false at creation and no
operation of the system ever sets it. -/
theorem claim10_pushed_never_true (st : Store) (h : Reachable st) :
    pushesNotPushed st = true := by
  induction h with
  | init => rfl
  | fetch oracle today feeds hst ih =>
    rw [pushesNotPushed_iff] at ih ⊢
    intro q hq
    rcases fetch_pushes_mem _ _ _ _ q hq with h' | h'
    · exact ih q h'
    · exact h'
  | register body hst ih =>
    rw [pushesNotPushed_iff] at ih ⊢
    intro q hq
    rw [register_user_pushes] at hq
    exact ih q hq
  | today d uid hst ih =>
    rw [pushesNotPushed_iff] at ih ⊢
    intro q hq
    rw [get_today_snd] at hq
    exact ih q hq
  | complete pid hst ih =>
    rw [pushesNotPushed_iff] at ih ⊢
    intro q hq
    obtain ⟨r, hr, he⟩ := complete_task_pushes_mem _ _ q hq
    rw [he]
    exact ih r hr

/-- Claim C10 witness: the invariant evaluated on the concrete reachable
store obtained by one registration followed by one ingestion run, which
contains six Push rows. -/
theorem claim10_witness : pushesNotPushed stReach = true :=
  claim10_pushed_never_true stReach
    (Reachable.fetch oracleW 0 [feedW] (Reachable.register regW Reachable.init))

/-! ### Lemmas on the response split -/

theorem pySplitDelim_ne_nil : ∀ l : List Char, pySplitDelim l ≠ [] := by
  intro l
  induction l using pySplitDelim.induct
  case case1 => simp [pySplitDelim]
  case case2 rest ih => simp [pySplitDelim]
  case case3 c rest h hm ih => simp [pySplitDelim, hm, h]
  case case4 c rest h piece pieces hm ih => simp [pySplitDelim, hm, h]

theorem intercalate_singleton_chars (sep x : List Char) :
    List.intercalate sep [x] = x := by
  simp [List.intercalate]

theorem intercalate_cons_cons_chars (sep x y : List Char) (zs : List (List Char)) :
    List.intercalate sep (x :: y :: zs) = x ++ sep ++ List.intercalate sep (y :: zs) := by
  simp [List.intercalate, List.intersperse]

theorem intercalate_pySplitDelim : ∀ l : List Char,
    List.intercalate delim (pySplitDelim l) = l := by
  intro l
  induction l using pySplitDelim.induct
  case case1 => simp [pySplitDelim, intercalate_singleton_chars]
  case case2 rest ih =>
    rw [pySplitDelim.eq_2]
    obtain ⟨p, ps, hp⟩ : ∃ p ps, pySplitDelim rest = p :: ps := by
      cases h : pySplitDelim rest with
      | nil => exact absurd h (pySplitDelim_ne_nil rest)
      | cons p ps => exact ⟨p, ps, rfl⟩
    rw [hp] at ih ⊢
    rw [intercalate_cons_cons_chars, ih]
    simp [delim]
  case case3 c rest h hm ih => exact absurd hm (pySplitDelim_ne_nil rest)
  case case4 c rest h piece pieces hm ih =>
    rw [pySplitDelim.eq_3 c rest h, hm]
    rw [hm] at ih
    cases pieces with
    | nil =>
      rw [intercalate_singleton_chars] at ih ⊢
      rw [ih]
    | cons q qs =>
      rw [intercalate_cons_cons_chars] at ih ⊢
      rw [List.cons_append, List.cons_append, ih]

theorem hasDelim_nil : ¬ hasDelim [] := by
  rintro ⟨a, b, hab⟩
  have hlen := congrArg List.length hab
  simp [delim] at hlen
  omega

theorem hasDelim_cons (c : Char) (l : List Char) (h : hasDelim (c :: l)) :
    (∃ b, c :: l = delim ++ b) ∨ hasDelim l := by
  obtain ⟨a, b, hab⟩ := h
  cases a with
  | nil =>
    left
    exact ⟨b, by simpa using hab⟩
  | cons a0 a' =>
    right
    have hab' : c :: l = a0 :: (a' ++ delim ++ b) := by
      rw [hab]
      simp [List.cons_append, List.append_assoc]
    injection hab' with h1 h2
    exact ⟨a', b, h2⟩

theorem head_piece_extends (l piece : List Char) (pieces : List (List Char))
    (h : pySplitDelim l = piece :: pieces) : ∃ t, l = piece ++ t := by
  have hi := intercalate_pySplitDelim l
  rw [h] at hi
  cases pieces with
  | nil =>
    rw [intercalate_singleton_chars] at hi
    exact ⟨[], by simp [hi]⟩
  | cons q qs =>
    rw [intercalate_cons_cons_chars] at hi
    exact ⟨delim ++ List.intercalate delim (q :: qs), by rw [← hi]; simp⟩

theorem pySplitDelim_no_delim : ∀ l : List Char, ∀ p ∈ pySplitDelim l, ¬ hasDelim p := by
  intro l
  induction l using pySplitDelim.induct
  case case1 =>
    intro p hp
    simp [pySplitDelim] at hp
    subst hp
    exact hasDelim_nil
  case case2 rest ih =>
    intro p hp
    rw [pySplitDelim.eq_2] at hp
    rcases List.mem_cons.mp hp with h | h
    · subst h; exact hasDelim_nil
    · exact ih p h
  case case3 c rest h hm ih => exact absurd hm (pySplitDelim_ne_nil rest)
  case case4 c rest h piece pieces hm ih =>
    intro p hp
    rw [pySplitDelim.eq_3 c rest h, hm] at hp
    rcases List.mem_cons.mp hp with hh | hh
    · subst hh
      intro hd
      rcases hasDelim_cons c piece hd with ⟨b, hb⟩ | hd'
      · obtain ⟨t, ht⟩ := head_piece_extends rest piece pieces hm
        simp only [delim, List.cons_append, List.nil_append, List.cons.injEq] at hb
        obtain ⟨hc, hpiece⟩ := hb
        exact h (b ++ t) hc (by rw [ht, hpiece]; simp)
      · exact ih piece (by rw [hm]; exact List.mem_cons_self _ _) hd'
    · exact ih p (by rw [hm]; exact List.mem_cons_of_mem _ hh)

/-- Claim C3 counterexample: the claim as stated fails — on the response
`' A 建议： B 建议： C '` the code does NOT return the raw part before the
delimiter as summary and the raw remainder as suggestion (it strips
whitespace, and a second occurrence cuts the suggestion short): the code
yields `('A', 'B')`. -/
theorem claim3_counterexample :
    parse_completion " A 建议： B 建议： C " ≠ (" A ", " B 建议： C ") := by
  decide

/-- Claim C3 (amended): the client splits the response text on the literal
delimiter `'建议：'` into delimiter-free pieces whose rejoining with the
delimiter restores the text; the summary is the FIRST piece with
surrounding whitespace stripped, and the suggestion is the SECOND piece
(the text between the first and second occurrences) stripped when the
delimiter occurs, and the empty string when it is absent. -/
theorem claim3_split_parse (text : String) :
    ∃ (summaryChars : List Char) (pieces : List (List Char)),
      text.data = List.intercalate delim (summaryChars :: pieces) ∧
      ¬ hasDelim summaryChars ∧ (∀ q ∈ pieces, ¬ hasDelim q) ∧
      parse_completion text =
        (String.mk (pyStrip summaryChars),
         match pieces with
         | [] => ""
         | t :: _ => String.mk (pyStrip t)) := by
  obtain ⟨s, ps, hsp⟩ : ∃ s ps, pySplitDelim text.data = s :: ps := by
    cases h : pySplitDelim text.data with
    | nil => exact absurd h (pySplitDelim_ne_nil text.data)
    | cons s ps => exact ⟨s, ps, rfl⟩
  refine ⟨s, ps, ?_, ?_, ?_, ?_⟩
  · have hi := intercalate_pySplitDelim text.data
    rw [hsp] at hi
    exact hi.symm
  · exact pySplitDelim_no_delim text.data s (hsp ▸ List.mem_cons_self s ps)
  · exact fun q hq => pySplitDelim_no_delim text.data q (hsp ▸ List.mem_cons_of_mem s hq)
  · unfold parse_completion
    rw [hsp]
    cases ps with
    | nil => rfl
    | cons t ts => rfl

end ACA
